import Mathlib

/-!
Shallow embedding of the T4 GPU index pipeline.

Numeric values (prices, weights, discounts) are modelled exactly over `ℚ`;
the Python code uses IEEE doubles, and every claim here is about the exact
arithmetic the formulas denote.  Python dicts keyed by provider name are
modelled as association lists (`List (String × ℚ)`); where a claim depends
on the dict invariant that keys are unique, the theorem carries a `Nodup`
hypothesis.  Python `str.lower` is modelled by the ASCII `Char.toLower`
map (all registry aliases are ASCII).
-/

namespace T4Bot

/-- Lower-cased character list of a string (models Python `s.lower()`). -/
def lower (s : String) : List Char := s.toList.map Char.toLower

/-- The predicate `isSub needle hay` models Python `needle in hay` (contiguous substring). -/
def isSub (needle : List Char) : List Char → Bool
  | [] => needle.isEmpty
  | c :: t => needle.isPrefixOf (c :: t) || isSub needle t

/-- The ordered alias table of `T4IndexCalculator.provider_aliases`. -/
def provider_aliases : List (String × String) :=
  [("Google Cloud", "GCP"), ("Google", "GCP"), ("Amazon Web Services", "AWS"),
   ("Alibaba", "Alibaba Cloud"), ("Tencent", "Tencent Cloud"), ("Thunder", "Thunder Compute")]

/-- The loop body of `normalize_provider_name`: for each alias entry in order,
return its canonical value on a case-insensitive equality or substring hit. -/
def normAux (name : String) : List (String × String) → String
  | [] => name
  | (a, std) :: rest =>
    if lower name == lower a then std
    else if isSub (lower a) (lower name) then std
    else normAux name rest

/-- Embeds `T4IndexCalculator.normalize_provider_name`. -/
def normalize_provider_name (name : String) : String :=
  normAux name provider_aliases

/-- First alias entry whose alias case-insensitively equals the name
(the spec's first pass). -/
def findEq (name : String) : List (String × String) → Option String
  | [] => none
  | (a, std) :: rest => if lower name == lower a then some std else findEq name rest

/-- First alias entry whose alias is a case-insensitive substring of the name
(the spec's second pass). -/
def findSub (name : String) : List (String × String) → Option String
  | [] => none
  | (a, std) :: rest => if isSub (lower a) (lower name) then some std else findSub name rest

/-- Normalization as the spec words it: a full equality pass over the table,
then a substring pass, then the raw name unchanged. -/
def normalizeSpec (name : String) : String :=
  match findEq name provider_aliases with
  | some std => std
  | none =>
    match findSub name provider_aliases with
    | some std => std
    | none => name

/-! ## Price-string parsing (`T4IndexCalculator._parse_price`) -/

/-- Characters matched by the regex character class `[0-9.]`. -/
def isTokChar (c : Char) : Bool := c.isDigit || c == '.'

/-- Models `re.search(r'([0-9.]+)', s)`: the first maximal run of `[0-9.]` characters. -/
def firstTok : List Char → Option (List Char)
  | [] => none
  | c :: rest => if isTokChar c then some (c :: rest.takeWhile isTokChar) else firstTok rest

/-- Decimal digits to a natural number. -/
def digitsToNat (l : List Char) : ℕ :=
  l.foldl (fun n c => 10 * n + (c.toNat - 48)) 0

/-- Whether Python `float(tok)` succeeds on a `[0-9.]+` token: at least one
digit and at most one dot. -/
def tokValid (t : List Char) : Bool :=
  t.any Char.isDigit && decide (t.count '.' ≤ 1)

/-- Value of a valid `[0-9.]+` token as a rational. -/
def tokVal (t : List Char) : ℚ :=
  let intPart := t.takeWhile (fun c => !(c == '.'))
  let rest := t.dropWhile (fun c => !(c == '.'))
  let fracPart := rest.drop 1
  (digitsToNat intPart : ℚ) + (digitsToNat fracPart : ℚ) / 10 ^ fracPart.length

/-- Embeds `T4IndexCalculator._parse_price`.  `Except.error` models the `ValueError`
that `float()` raises when the matched token is not a valid float literal
(e.g. a lone dot); `Except.ok 0` models the no-match return of `0.0`. -/
def parse_price (s : String) : Except Unit ℚ :=
  match firstTok s.toList with
  | none => Except.ok 0
  | some t => if tokValid t then Except.ok (tokVal t) else Except.error ()

/-- One provider entry of the combined-file loader loop: parse the price
string, keep it only if strictly positive, keyed by the normalized name.
Dict insertion (`prices[norm_name] = price`) is last-write-wins. -/
def updateAssoc (l : List (String × ℚ)) (k : String) (v : ℚ) : List (String × ℚ) :=
  if l.any (fun kv => kv.1 == k) then
    l.map (fun kv => if kv.1 == k then (k, v) else kv)
  else l ++ [(k, v)]

/-- The combined-file loading loop of `load_prices`.  Returns the price map
built so far together with an error flag: a `ValueError` in `_parse_price`
propagates to the surrounding `except`, which stops the loop but keeps the
entries already inserted. -/
def loadGo (acc : List (String × ℚ)) : List (String × String) → List (String × ℚ) × Bool
  | [] => (acc, false)
  | e :: rest =>
    match parse_price e.2 with
    | Except.error _ => (acc, true)
    | Except.ok p =>
      loadGo (if 0 < p then updateAssoc acc (normalize_provider_name e.1) p else acc) rest

/-- Loading the `"prices"` object of the combined file. -/
def load_prices_combined (entries : List (String × String)) : List (String × ℚ) × Bool :=
  loadGo [] entries

/-! ## Weighted index calculator (`T4IndexCalculator.calculate_index`) -/

/-- The list `self.hyperscalers`. -/
def hyperscalers : List String := ["AWS", "Azure", "GCP"]

/-- The lookup `self.hyperscaler_discounts.get(hs, 0.30)`. -/
def hyperscaler_discounts (hs : String) : ℚ :=
  if hs = "AWS" then 44/100
  else if hs = "Azure" then 65/100
  else if hs = "GCP" then 65/100
  else 30/100

/-- The lookup `self.hyperscaler_weights.get(hs, 0.0)`. -/
def hyperscaler_weights (hs : String) : ℚ :=
  if hs = "AWS" then 45/100
  else if hs = "Azure" then 30/100
  else if hs = "GCP" then 25/100
  else 0

/-- The registry `self.neocloud_weights`, an ordered table (Python dict preserves
insertion order, which the weight-key loop iterates). -/
def neocloud_weights : List (String × ℚ) :=
  [("Alibaba Cloud", 15/100), ("Tencent Cloud", 15/100), ("Vast.ai", 15/100),
   ("Paperspace", 15/100), ("Replicate", 10/100), ("Thunder Compute", 10/100),
   ("Cerebrium", 10/100), ("NeevCloud", 10/100), ("default", 5/100)]

/-- The fallback loop `for k, v in prices.items(): if norm_hs.lower() in k.lower()`:
first value whose key contains the name case-insensitively. -/
def fallbackPrice (prices : List (String × ℚ)) (n : String) : Option ℚ :=
  (prices.find? (fun kv => isSub (lower n) (lower kv.1))).map Prod.snd

/-- Models `price = prices.get(norm_hs); if not price: <fallback loop>` — a stored
price of `0.0` is falsy in Python, so it also triggers the fallback. -/
def hsLookup (prices : List (String × ℚ)) (n : String) : Option ℚ :=
  match prices.lookup n with
  | some v => if v = 0 then fallbackPrice prices n else some v
  | none => fallbackPrice prices n

/-- The observed price the hyperscaler loop actually uses for `hs`:
after lookup and fallback, `if price:` keeps only a nonzero value. -/
def hsObs (prices : List (String × ℚ)) (hs : String) : Option ℚ :=
  match hsLookup prices (normalize_provider_name hs) with
  | some v => if v = 0 then none else some v
  | none => none

/-- The per-hyperscaler record stored in `hyperscaler_data[hs]`. -/
structure HSEntry where
  original : ℚ
  discounted : ℚ
  effective : ℚ
  weight : ℚ
  contribution : ℚ
deriving DecidableEq, Repr

/-- Body of the hyperscaler loop for a found price. -/
def hsEntry (hs : String) (price : ℚ) : HSEntry :=
  let discount := hyperscaler_discounts hs
  let disc_price := price * (1 - discount)
  let eff := disc_price * (80/100) + price * (20/100)
  let weight := hyperscaler_weights hs
  { original := price, discounted := disc_price, effective := eff,
    weight := weight, contribution := eff * weight * (65/100) }

/-- The map `hyperscaler_data`: the hyperscalers with a found price, in loop order. -/
def hsData (prices : List (String × ℚ)) : List (String × HSEntry) :=
  hyperscalers.filterMap (fun hs => (hsObs prices hs).map (fun p => (hs, hsEntry hs p)))

/-- The accumulator `hs_weight_used`: accumulated relative weights of found hyperscalers. -/
def hs_weight_used (prices : List (String × ℚ)) : ℚ :=
  ((hsData prices).map (fun e => e.2.weight)).sum

/-- The accumulator `hs_weighted_sum` before the renormalization step. -/
def hs_raw_sum (prices : List (String × ℚ)) : ℚ :=
  ((hsData prices).map (fun e => e.2.contribution)).sum

/-- The value of `hs_weighted_sum` after `if 0 < hs_weight_used < 1.0: hs_weighted_sum *= 1.0/hs_weight_used`. -/
def hs_sum (prices : List (String × ℚ)) : ℚ :=
  if 0 < hs_weight_used prices ∧ hs_weight_used prices < 1 then
    hs_raw_sum prices * (1 / hs_weight_used prices)
  else hs_raw_sum prices

/-- The `is_hs` test of the neocloud filter: `normalize_provider_name(hs) == p`
for some registered hyperscaler. -/
def isHyperscalerKey (p : String) : Bool :=
  hyperscalers.any (fun hs => normalize_provider_name hs == p)

/-- The list `nc_providers`: observed providers that are not hyperscalers and not
aggregator pseudo-entries (case-sensitive `"GetDeploying" not in p and
"Average" not in p`). -/
def ncProviders (prices : List (String × ℚ)) : List (String × ℚ) :=
  prices.filter (fun kv =>
    !isHyperscalerKey kv.1
    && !isSub "GetDeploying".toList kv.1.toList
    && !isSub "Average".toList kv.1.toList)

/-- The weight-key loop: first `neocloud_weights` key that is a
case-insensitive substring of the provider name, else the default 0.05
(`w_key` stays `"default"`). -/
def ncRawWeight (p : String) : ℚ :=
  match neocloud_weights.find? (fun kw => isSub (lower kw.1) (lower p)) with
  | some kw => kw.2
  | none => 5/100

/-- The map `neocloud_data`: `(provider, price, raw_weight)` in loop order. -/
def ncData (prices : List (String × ℚ)) : List (String × ℚ × ℚ) :=
  (ncProviders prices).map (fun kv => (kv.1, kv.2, ncRawWeight kv.1))

/-- The accumulator `nc_weight_used`: the sum of raw weights of present neocloud providers. -/
def nc_weight_used (prices : List (String × ℚ)) : ℚ :=
  ((ncProviders prices).map (fun kv => ncRawWeight kv.1)).sum

/-- The accumulator `nc_weighted_sum`: redistribution loop, guarded by `nc_weight_used > 0`. -/
def nc_sum (prices : List (String × ℚ)) : ℚ :=
  if 0 < nc_weight_used prices then
    ((ncProviders prices).map
      (fun kv => kv.2 * (ncRawWeight kv.1 / nc_weight_used prices) * (35/100))).sum
  else 0

/-! ## Report construction and rounding -/

/-- Round half to even at integer precision (Python `round` tie-breaking). -/
def rndHalfEven (q : ℚ) : ℤ :=
  let f := Int.floor q
  if q - f < 1/2 then f
  else if (1:ℚ)/2 < q - f then f + 1
  else if f % 2 = 0 then f else f + 1

/-- Python `round(q, d)` modelled as exact decimal round-half-even. -/
def pyRound (q : ℚ) (d : ℕ) : ℚ :=
  (rndHalfEven (q * 10 ^ d) : ℚ) / 10 ^ d

/-- The report written to `t4_weighted_index.json` (the IndexSnapshot). -/
structure Report where
  final_index_price : ℚ
  hyperscaler_component : ℚ
  neocloud_component : ℚ
  hyperscalers : List (String × HSEntry)
  neoclouds : List (String × ℚ × ℚ)
deriving DecidableEq, Repr

/-- Embeds `calculate_index`: `none` models the early `return` when no pricing data
was loaded (no snapshot, no report file); otherwise the report is built and
written. -/
def calculate_index (prices : List (String × ℚ)) : Option Report :=
  if prices.isEmpty then none
  else some
    { final_index_price := pyRound (hs_sum prices + nc_sum prices) 2,
      hyperscaler_component := pyRound (hs_sum prices) 4,
      neocloud_component := pyRound (nc_sum prices) 4,
      hyperscalers := hsData prices,
      neoclouds := ncData prices }

/-! ## Publish gate and durable sink (`push_t4_to_supabase.push_to_supabase`) -/

/-- A row of the `t4_index_prices` table. -/
structure IndexRow where
  index_price : ℚ
  hyperscaler_component : ℚ
  neocloud_component : ℚ
deriving DecidableEq, Repr

/-- A row of the `t4_provider_prices` table. -/
structure ProviderRow where
  provider_name : String
  provider_type : String
  original_price : ℚ
  effective_price : ℚ
  discount_rate : ℚ
  relative_weight : ℚ
  absolute_weight : ℚ
  weighted_contribution : ℚ
deriving DecidableEq, Repr

/-- The durable store: index rows newest-first (the gate reads the head,
matching `order('created_at', desc=True).limit(1)`), plus provider rows. -/
structure SinkState where
  index_rows : List IndexRow
  provider_rows : List ProviderRow
deriving DecidableEq, Repr

/-- The pair `(prev_price * 0.80, prev_price * 1.20)`. -/
def gate_bounds (prev : ℚ) : ℚ × ℚ := (prev * (80/100), prev * (120/100))

/-- The validation step: with no previous row the push is allowed; otherwise
accept iff `lower_bound <= new_price <= upper_bound` (both inclusive). -/
def gate_accept : Option ℚ → ℚ → Bool
  | none, _ => true
  | some prev, newPrice =>
    decide ((gate_bounds prev).1 ≤ newPrice ∧ newPrice ≤ (gate_bounds prev).2)

/-- The index record inserted into `t4_index_prices`. -/
def indexRowOf (r : Report) : IndexRow :=
  { index_price := r.final_index_price,
    hyperscaler_component := r.hyperscaler_component,
    neocloud_component := r.neocloud_component }

/-- A hyperscaler breakdown record. -/
def hsProviderRow (name : String) (d : HSEntry) : ProviderRow :=
  { provider_name := name, provider_type := "hyperscaler",
    original_price := d.original, effective_price := d.effective,
    discount_rate := if d.original ≠ 0 then (d.original - d.discounted) / d.original else 0,
    relative_weight := d.weight, absolute_weight := d.weight * (65/100),
    weighted_contribution := d.contribution }

/-- A neocloud breakdown record. -/
def ncProviderRow (name : String) (price rawWeight : ℚ) : ProviderRow :=
  { provider_name := name, provider_type := "neocloud",
    original_price := price, effective_price := price, discount_rate := 0,
    relative_weight := rawWeight, absolute_weight := rawWeight * (35/100),
    weighted_contribution := 0 }

/-- Embeds `push_to_supabase`: validate the new price against the latest stored row,
then insert the index record and the provider records; on rejection return
`False` with the store untouched. -/
def push_to_supabase (st : SinkState) (r : Report) : Bool × SinkState :=
  let newPrice := r.final_index_price
  let prev := (st.index_rows.head?).map IndexRow.index_price
  if gate_accept prev newPrice then
    let provRows :=
      r.hyperscalers.map (fun e => hsProviderRow e.1 e.2)
        ++ r.neoclouds.map (fun e => ncProviderRow e.1 e.2.1 e.2.2)
    (true, { index_rows := indexRowOf r :: st.index_rows,
             provider_rows := provRows ++ st.provider_rows })
  else (false, st)

/-! ## On-chain oracle encoding (`push_to_contract.py`) -/

/-- The constant `PRICE_DECIMALS = 18`. -/
def PRICE_DECIMALS : ℕ := 18

/-- Python `int()`: truncation toward zero. -/
def pyInt (q : ℚ) : ℤ :=
  if 0 ≤ q then Int.floor q else -Int.floor (-q)

/-- The scaling `int(price_usd * (10**PRICE_DECIMALS))` from `update_price`. -/
def encode_price (price_usd : ℚ) : ℤ :=
  pyInt (price_usd * 10 ^ PRICE_DECIMALS)

/-- The property `PriceData.price`: `price_raw / 10**PRICE_DECIMALS`. -/
def decode_price (price_raw : ℤ) : ℚ :=
  (price_raw : ℚ) / 10 ^ PRICE_DECIMALS

/-! ## Helper lemmas -/

/-- Every resolvable neocloud raw weight is strictly positive. -/
lemma ncRawWeight_pos (p : String) : 0 < ncRawWeight p := by
  unfold ncRawWeight
  cases h : neocloud_weights.find? (fun kw => isSub (lower kw.1) (lower p)) with
  | none => norm_num
  | some kw =>
    have hmem : kw ∈ neocloud_weights := List.mem_of_find?_eq_some h
    have hall : ∀ x ∈ neocloud_weights, (0:ℚ) < x.2 := by
      intro x hx
      fin_cases hx <;> norm_num
    exact hall kw hmem

/-- Summing pointwise divisions equals dividing the sum. -/
lemma list_sum_map_div {α : Type} (l : List α) (f : α → ℚ) (c : ℚ) :
    (l.map (fun x => f x / c)).sum = (l.map f).sum / c := by
  induction l with
  | nil => simp
  | cons a t ih => simp [ih, add_div]

/-- Every hyperscaler entry actually accumulated carries a positive weight. -/
lemma hsData_weight_pos (prices : List (String × ℚ)) :
    ∀ e ∈ hsData prices, 0 < e.2.weight := by
  intro e he
  unfold hsData at he
  obtain ⟨hs, hhs, hf⟩ := List.mem_filterMap.mp he
  obtain ⟨p, _, rfl⟩ := Option.map_eq_some'.mp hf
  have hall : ∀ h ∈ hyperscalers, (0:ℚ) < hyperscaler_weights h := by
    intro h hh
    fin_cases hh
    · rw [show hyperscaler_weights "AWS" = 45/100 from rfl]; norm_num
    · rw [show hyperscaler_weights "Azure" = 30/100 from rfl]; norm_num
    · rw [show hyperscaler_weights "GCP" = 25/100 from rfl]; norm_num
  simpa [hsEntry] using hall hs hhs

/-- A string whose characters are all outside `[0-9.]` has no token. -/
lemma firstTok_none {l : List Char} (h : ∀ c ∈ l, isTokChar c = false) :
    firstTok l = none := by
  induction l with
  | nil => rfl
  | cons c t ih =>
    simp only [firstTok, h c (List.mem_cons_self c t)]
    exact ih (fun d hd => h d (List.mem_cons_of_mem c hd))

/-- When the first-pass equality search fails, the code's combined loop
agrees with the substring pass. -/
lemma normAux_findEq_none (name : String) :
    ∀ t : List (String × String), findEq name t = none →
    normAux name t = (findSub name t).getD name := by
  intro t
  induction t with
  | nil => intro _; rfl
  | cons e rest ih =>
    obtain ⟨a, std⟩ := e
    intro h
    cases hb : (lower name == lower a) with
    | true => simp [findEq, hb] at h
    | false =>
      have h' : findEq name rest = none := by simpa [findEq, hb] using h
      by_cases hs : isSub (lower a) (lower name)
      · simp [normAux, findSub, hb, hs]
      · simp [normAux, findSub, hb, hs, ih h']

/-! ## Claim theorems -/

/-- C3: for every observed hyperscaler price `p` with its discount rate `d`,
the discount-blended effective price equals `p*(1-d)*0.80 + p*0.20`; the AWS
discount is 0.44 and at price 1.00 the effective price is 0.648. -/
theorem discount_blend_formula :
    (∀ (hs : String) (p : ℚ), (hsEntry hs p).effective
        = p * (1 - hyperscaler_discounts hs) * (80/100) + p * (20/100))
    ∧ hyperscaler_discounts "AWS" = 44/100
    ∧ (hsEntry "AWS" 1).effective = 648/1000 := by
  refine ⟨fun hs p => ?_, by norm_num [hyperscaler_discounts],
    by norm_num [hsEntry, hyperscaler_discounts]⟩
  simp only [hsEntry]

/-- C4: the publish gate accepts unconditionally with no previous record;
otherwise it accepts iff the new price lies within
`(previous*0.80, previous*1.20)` inclusive; 0.50 → 0.60 is accepted and
0.50 → 0.61 is rejected. -/
theorem publish_gate_accept_rule :
    (∀ q : ℚ, gate_accept none q = true)
    ∧ (∀ prev q : ℚ, gate_accept (some prev) q = true ↔
        ((gate_bounds prev).1 ≤ q ∧ q ≤ (gate_bounds prev).2))
    ∧ (∀ prev : ℚ, gate_bounds prev = (prev * (80/100), prev * (120/100)))
    ∧ gate_accept (some (50/100)) (60/100) = true
    ∧ gate_accept (some (50/100)) (61/100) = false := by
  refine ⟨fun _ => rfl, fun prev q => ?_, fun _ => rfl, ?_, ?_⟩
  · simp [gate_accept]
  · simp only [gate_accept, gate_bounds, decide_eq_true_eq]
    norm_num
  · simp only [gate_accept, gate_bounds, decide_eq_false_iff_not]
    norm_num

/-- C9: the oracle encoding is `floor(price * 10^18)` for nonnegative prices,
decoding divides by `10^18`, and every 4-decimal price — 0.4512 in
particular — round-trips exactly. -/
theorem oracle_fixed_point_roundtrip :
    (∀ q : ℚ, 0 ≤ q → encode_price q = Int.floor (q * 10 ^ PRICE_DECIMALS))
    ∧ (∀ n : ℤ, decode_price n = (n : ℚ) / 10 ^ PRICE_DECIMALS)
    ∧ decode_price (encode_price (4512/10000)) = 4512/10000
    ∧ (∀ n : ℕ, decode_price (encode_price ((n : ℚ) / 10 ^ 4)) = (n : ℚ) / 10 ^ 4) := by
  have henc : ∀ n : ℕ, encode_price ((n : ℚ) / 10 ^ 4) = (n : ℤ) * 10 ^ 14 := by
    intro n
    have hc : ((n : ℚ) / 10 ^ 4) * 10 ^ PRICE_DECIMALS = (((n : ℤ) * 10 ^ 14 : ℤ) : ℚ) := by
      push_cast [PRICE_DECIMALS]
      ring
    unfold encode_price pyInt
    rw [if_pos (by positivity), hc, Int.floor_intCast]
  have hdec : ∀ n : ℕ, decode_price (encode_price ((n : ℚ) / 10 ^ 4)) = (n : ℚ) / 10 ^ 4 := by
    intro n
    rw [henc n]
    unfold decode_price
    push_cast [PRICE_DECIMALS]
    rw [div_eq_div_iff (by norm_num) (by norm_num)]
    ring
  refine ⟨fun q hq => ?_, fun n => rfl, ?_, hdec⟩
  · unfold encode_price pyInt
    rw [if_pos (by positivity)]
  · have h4512 := hdec 4512
    norm_num at h4512 ⊢
    exact h4512

/-- Witness for C9: the nonnegativity hypothesis is satisfiable at price 1. -/
theorem oracle_fixed_point_roundtrip_witness :
    encode_price 1 = Int.floor ((1 : ℚ) * 10 ^ PRICE_DECIMALS) :=
  oracle_fixed_point_roundtrip.1 1 (by norm_num)

/-- A component with no accumulated hyperscaler entries sums to zero. -/
lemma hs_sum_of_no_data {prices : List (String × ℚ)} (h : hsData prices = []) :
    hs_sum prices = 0 := by
  simp [hs_sum, hs_raw_sum, hs_weight_used, h]

/-- A component with no neocloud providers sums to zero. -/
lemma nc_sum_of_no_providers {prices : List (String × ℚ)} (h : ncProviders prices = []) :
    nc_sum prices = 0 := by
  simp [nc_sum, nc_weight_used, h]

/-- Rounding zero gives zero at any precision. -/
lemma pyRound_zero (d : ℕ) : pyRound 0 d = 0 := by
  norm_num [pyRound, rndHalfEven]

/-- C7 counterexample: the string "." contains no digit, hence no
floating-point numeric token, yet parsing raises (`float(".")` fails on the
dot-only regex match) instead of treating it as "no observation"; the raised
error aborts the combined load, losing the later valid entry as well. -/
theorem parse_price_dot_counterexample :
    ((("." : String).toList.all (fun c => !c.isDigit)) = true)
    ∧ parse_price "." = Except.error ()
    ∧ load_prices_combined [("DotCloud", "."), ("Other", "$1.00")] = ([], true) :=
  ⟨rfl, rfl, rfl⟩

/-- C7 amended: parsing extracts the first `[0-9.]` token ("$0.55/hr" parses
to 0.55); a string with no `[0-9.]` character yields 0, and non-positive
parses are silently dropped by the loader, never recorded as zero; but a
string whose first token is not a valid float literal (e.g. a bare ".")
raises an error that aborts the combined-file load instead of being dropped. -/
theorem parse_price_amended :
    parse_price "$0.55/hr" = Except.ok (55/100)
    ∧ (∀ s : String, s.toList.all (fun c => !isTokChar c) = true →
        parse_price s = Except.ok 0)
    ∧ load_prices_combined [("SomeCloud", "n/a")] = ([], false)
    ∧ load_prices_combined [("ZeroCloud", "$0.00/hr")] = ([], false)
    ∧ parse_price "." = Except.error () := by
  refine ⟨?_, ?_, rfl, ?_, rfl⟩
  · have h0 : parse_price "$0.55/hr"
        = Except.ok ((digitsToNat ['0'] : ℚ) + (digitsToNat ['5', '5'] : ℚ) / 10 ^ 2) := rfl
    rw [h0, show digitsToNat ['0'] = 0 from rfl, show digitsToNat ['5', '5'] = 55 from rfl]
    norm_num
  · intro s hall
    unfold parse_price
    rw [firstTok_none (fun c hc => by simpa using List.all_eq_true.mp hall c hc)]
  · have hp : parse_price "$0.00/hr"
        = Except.ok ((digitsToNat ['0'] : ℚ) + (digitsToNat ['0', '0'] : ℚ) / 10 ^ 2) := rfl
    have hv : ((digitsToNat ['0'] : ℚ) + (digitsToNat ['0', '0'] : ℚ) / 10 ^ 2) = 0 := by
      rw [show digitsToNat ['0'] = 0 from rfl, show digitsToNat ['0', '0'] = 0 from rfl]
      norm_num
    simp [load_prices_combined, loadGo, hp, hv]

/-- Witness for C7 (amended): the token-free hypothesis is satisfied by the
concrete price string "n/a", which parses to the dropped value 0. -/
theorem parse_price_amended_witness :
    parse_price "n/a" = Except.ok 0 :=
  parse_price_amended.2.1 "n/a" rfl

/-- C6 counterexample: on zero usable observations the calculator returns
early with no snapshot and writes no report, contradicting the claimed
zero-valued snapshot plus report. -/
theorem calculate_index_empty_counterexample : calculate_index [] = none := rfl

/-- C6 amended: with zero usable observations the calculator aborts without a
snapshot or report; a zero-valued snapshot (and report) is produced exactly
when observations exist — in particular when every observation is excluded
from both categories, both components and the index are 0 and a report is
still written. -/
theorem calculate_index_zero_data :
    calculate_index [] = none
    ∧ (∀ prices : List (String × ℚ), prices ≠ [] → (calculate_index prices).isSome = true)
    ∧ calculate_index [("Average", 1)]
        = some { final_index_price := 0, hyperscaler_component := 0,
                 neocloud_component := 0, hyperscalers := [], neoclouds := [] } := by
  refine ⟨rfl, fun prices h => ?_, ?_⟩
  · simp [calculate_index, h]
  · have hhs : hsData [("Average", (1:ℚ))] = [] := rfl
    have hnc : ncProviders [("Average", (1:ℚ))] = [] := rfl
    simp [calculate_index, hs_sum_of_no_data hhs, nc_sum_of_no_providers hnc,
      pyRound_zero, hhs, hnc, ncData]

/-- Witness for C6 (amended): a run with one observation is nonempty and
produces a snapshot. -/
theorem calculate_index_zero_data_witness :
    (calculate_index [("AWS", 1)]).isSome = true :=
  calculate_index_zero_data.2.1 [("AWS", 1)] (by decide)

/-- C5: when the gate rejects the new index price against the latest stored
row, nothing is written to the sink — no index record, no provider records —
and the failure is returned to the caller. -/
theorem publish_gate_reject_no_write :
    ∀ (st : SinkState) (r : Report) (prevRow : IndexRow),
      st.index_rows.head? = some prevRow →
      gate_accept (some prevRow.index_price) r.final_index_price = false →
      push_to_supabase st r = (false, st) := by
  intro st r prevRow hhead hrej
  simp [push_to_supabase, hhead, hrej]

/-- Witness for C5: a stored price of 0.50 rejects a new price of 0.61 and
the store is untouched. -/
theorem publish_gate_reject_no_write_witness :
    push_to_supabase ⟨[⟨1/2, 0, 0⟩], []⟩
        { final_index_price := 61/100, hyperscaler_component := 0,
          neocloud_component := 0, hyperscalers := [], neoclouds := [] }
      = (false, ⟨[⟨1/2, 0, 0⟩], []⟩) :=
  publish_gate_reject_no_write _ _ ⟨1/2, 0, 0⟩ rfl (by
    simp only [gate_accept, gate_bounds, decide_eq_false_iff_not]
    norm_num)

/-- C1: whenever at least one neocloud provider has an observation (and
provider keys are unique, as in a Python dict), the normalized weights
`raw_weight / nc_weight_used` over present providers sum to exactly 1, and
the component is the sum of `price * normalized_weight * 0.35`. -/
theorem nc_weights_renormalize :
    ∀ prices : List (String × ℚ),
      (prices.map Prod.fst).Nodup →
      ncProviders prices ≠ [] →
      ((ncProviders prices).map
          (fun kv => ncRawWeight kv.1 / nc_weight_used prices)).sum = 1
      ∧ nc_sum prices =
          ((ncProviders prices).map
            (fun kv => kv.2 * (ncRawWeight kv.1 / nc_weight_used prices) * (35/100))).sum := by
  intro prices _ hne
  have hpos : 0 < nc_weight_used prices := by
    unfold nc_weight_used
    apply List.sum_pos
    · intro x hx
      obtain ⟨kv, _, rfl⟩ := List.mem_map.mp hx
      exact ncRawWeight_pos kv.1
    · simpa using hne
  constructor
  · rw [list_sum_map_div]
    show nc_weight_used prices / nc_weight_used prices = 1
    exact div_self (ne_of_gt hpos)
  · simp only [nc_sum]
    rw [if_pos hpos]

/-- Witness for C1: with Vast.ai and Cerebrium present the normalized
weights sum to 1 and the component matches the contribution formula. -/
theorem nc_weights_renormalize_witness :
    ((ncProviders [("Vast.ai", (12:ℚ)/100), ("Cerebrium", 40/100)]).map
        (fun kv => ncRawWeight kv.1
          / nc_weight_used [("Vast.ai", (12:ℚ)/100), ("Cerebrium", 40/100)])).sum = 1
    ∧ nc_sum [("Vast.ai", (12:ℚ)/100), ("Cerebrium", 40/100)] =
        ((ncProviders [("Vast.ai", (12:ℚ)/100), ("Cerebrium", 40/100)]).map
          (fun kv => kv.2 * (ncRawWeight kv.1
            / nc_weight_used [("Vast.ai", (12:ℚ)/100), ("Cerebrium", 40/100)]) * (35/100))).sum :=
  nc_weights_renormalize _ (by decide) (by decide)

/-- C2: if `0 < hs_weight_used < 1` the hyperscaler sum is scaled by
`1/hs_weight_used`; if `hs_weight_used = 0` the sum stays 0; and with only
AWS present (relative weight 0.45), the renormalized sum equals the
weight-1.0 contribution `effective * 1 * 0.65`. -/
theorem hs_renormalization :
    (∀ prices : List (String × ℚ),
        0 < hs_weight_used prices → hs_weight_used prices < 1 →
        hs_sum prices = hs_raw_sum prices * (1 / hs_weight_used prices))
    ∧ (∀ prices : List (String × ℚ),
        hs_weight_used prices = 0 → hs_sum prices = 0)
    ∧ (∀ (prices : List (String × ℚ)) (p : ℚ),
        hsObs prices "AWS" = some p →
        hsObs prices "Azure" = none →
        hsObs prices "GCP" = none →
        (hsEntry "AWS" p).weight = 45/100
        ∧ hs_sum prices = (hsEntry "AWS" p).effective * 1 * (65/100)) := by
  refine ⟨?_, ?_, ?_⟩
  · intro prices h1 h2
    simp only [hs_sum]
    rw [if_pos ⟨h1, h2⟩]
  · intro prices h0
    have hnil : hsData prices = [] := by
      by_contra hd
      have hpos : 0 < hs_weight_used prices := by
        unfold hs_weight_used
        apply List.sum_pos
        · intro x hx
          obtain ⟨e, he, rfl⟩ := List.mem_map.mp hx
          exact hsData_weight_pos prices e he
        · simpa using hd
      exact absurd h0 (ne_of_gt hpos)
    simp [hs_sum, hs_raw_sum, hs_weight_used, hnil]
  · intro prices p h1 h2 h3
    have hdata : hsData prices = [("AWS", hsEntry "AWS" p)] := by
      simp [hsData, hyperscalers, h1, h2, h3]
    have hw : hs_weight_used prices = 45/100 := by
      simp [hs_weight_used, hdata, show (hsEntry "AWS" p).weight = 45/100 from rfl]
    refine ⟨rfl, ?_⟩
    simp only [hs_sum]
    rw [if_pos (by rw [hw]; norm_num : 0 < hs_weight_used prices ∧ hs_weight_used prices < 1)]
    have hraw : hs_raw_sum prices
        = (hsEntry "AWS" p).effective * (45/100) * (65/100) := by
      simp [hs_raw_sum, hdata,
        show (hsEntry "AWS" p).contribution
          = (hsEntry "AWS" p).effective * (45/100) * (65/100) from rfl]
    rw [hraw, hw]
    ring

/-- Witness for C2: all three implications are live — AWS alone gives a
renormalized sum, a neocloud-only run gives weight 0 and sum 0, and the
AWS-only run matches the weight-1.0 contribution. -/
theorem hs_renormalization_witness :
    hs_sum [("AWS", 1)] = hs_raw_sum [("AWS", 1)] * (1 / hs_weight_used [("AWS", 1)])
    ∧ hs_sum [("Vast.ai", (1:ℚ))] = 0
    ∧ hs_sum [("AWS", 1)] = (hsEntry "AWS" 1).effective * 1 * (65/100) := by
  have hw1 : hs_weight_used [("AWS", (1:ℚ))] = 45/100 := by
    rw [show hs_weight_used [("AWS", (1:ℚ))] = [(45:ℚ)/100].sum from rfl]
    simp
  have hw0 : hs_weight_used [("Vast.ai", (1:ℚ))] = 0 := rfl
  exact ⟨hs_renormalization.1 _ (by rw [hw1]; norm_num) (by rw [hw1]; norm_num),
    hs_renormalization.2.1 _ hw0,
    (hs_renormalization.2.2 [("AWS", 1)] 1 rfl rfl rfl).2⟩

/-- C10: every snapshot the calculator produces carries the raw
`hs_sum + nc_sum` rounded to 2 decimals as its published price and the two
components rounded to 4 decimals, and the publish path validates and
inserts exactly that rounded `final_index_price`. -/
theorem snapshot_rounding :
    ∀ (prices : List (String × ℚ)) (r : Report),
      calculate_index prices = some r →
      (r.final_index_price = pyRound (hs_sum prices + nc_sum prices) 2
       ∧ r.hyperscaler_component = pyRound (hs_sum prices) 4
       ∧ r.neocloud_component = pyRound (nc_sum prices) 4)
      ∧ (indexRowOf r).index_price = r.final_index_price
      ∧ (∀ st : SinkState,
          gate_accept ((st.index_rows.head?).map IndexRow.index_price)
              r.final_index_price = true →
          (push_to_supabase st r).1 = true
          ∧ (push_to_supabase st r).2.index_rows.head? = some (indexRowOf r)) := by
  intro prices r h
  by_cases hp : prices.isEmpty = true
  · simp [calculate_index, hp] at h
  · unfold calculate_index at h
    rw [if_neg hp] at h
    have hr := Option.some.inj h
    subst hr
    exact ⟨⟨rfl, rfl, rfl⟩, rfl, fun st hacc => by simp [push_to_supabase, hacc]⟩

/-- Witness for C10: a run whose snapshot is the zero report satisfies the
rounding equations and is inserted once the gate (bootstrap case) accepts. -/
theorem snapshot_rounding_witness :
    pyRound (hs_sum [("Average", (1:ℚ))] + nc_sum [("Average", (1:ℚ))]) 2 = 0
    ∧ (push_to_supabase ⟨[], []⟩
        { final_index_price := 0, hyperscaler_component := 0, neocloud_component := 0,
          hyperscalers := [], neoclouds := [] }).1 = true := by
  have hcalc : calculate_index [("Average", (1:ℚ))]
      = some { final_index_price := 0, hyperscaler_component := 0, neocloud_component := 0,
               hyperscalers := [], neoclouds := [] } := by
    have hhs : hsData [("Average", (1:ℚ))] = [] := rfl
    have hnc : ncProviders [("Average", (1:ℚ))] = [] := rfl
    simp [calculate_index, hs_sum_of_no_data hhs, nc_sum_of_no_providers hnc,
      pyRound_zero, hhs, hnc, ncData]
  have h := snapshot_rounding [("Average", (1:ℚ))] _ hcalc
  exact ⟨(h.1.1).symm, (h.2.2 ⟨[], []⟩ rfl).1⟩

/-- C8: for every raw name, the code's single pass over the alias table
(per-entry equality-then-substring, first hit wins) returns exactly what the
spec describes: the canonical value of the earliest case-insensitive
equality match, else of the earliest case-insensitive substring match, else
the raw name unchanged.  For this table no earlier alias is a substring of a
later alias, so the two orders of checking coincide on all inputs. -/
theorem normalize_matches_spec (name : String) :
    normalize_provider_name name = normalizeSpec name := by
  by_cases h1 : (lower name == lower "Google Cloud") = true
  · simp [normalize_provider_name, normAux, normalizeSpec, findEq, provider_aliases, h1]
  · rw [Bool.not_eq_true] at h1
    by_cases h2 : (lower name == lower "Google") = true
    · have e2 : lower name = lower "Google" := eq_of_beq h2
      have s1 : isSub (lower "Google Cloud") (lower name) = false := by rw [e2]; rfl
      simp [normalize_provider_name, normAux, normalizeSpec, findEq, provider_aliases,
        h1, h2, s1]
    · rw [Bool.not_eq_true] at h2
      by_cases h3 : (lower name == lower "Amazon Web Services") = true
      · have e3 : lower name = lower "Amazon Web Services" := eq_of_beq h3
        have s1 : isSub (lower "Google Cloud") (lower name) = false := by rw [e3]; rfl
        have s2 : isSub (lower "Google") (lower name) = false := by rw [e3]; rfl
        simp [normalize_provider_name, normAux, normalizeSpec, findEq, provider_aliases,
          h1, h2, h3, s1, s2]
      · rw [Bool.not_eq_true] at h3
        by_cases h4 : (lower name == lower "Alibaba") = true
        · have e4 : lower name = lower "Alibaba" := eq_of_beq h4
          have s1 : isSub (lower "Google Cloud") (lower name) = false := by rw [e4]; rfl
          have s2 : isSub (lower "Google") (lower name) = false := by rw [e4]; rfl
          have s3 : isSub (lower "Amazon Web Services") (lower name) = false := by
            rw [e4]; rfl
          simp [normalize_provider_name, normAux, normalizeSpec, findEq, provider_aliases,
            h1, h2, h3, h4, s1, s2, s3]
        · rw [Bool.not_eq_true] at h4
          by_cases h5 : (lower name == lower "Tencent") = true
          · have e5 : lower name = lower "Tencent" := eq_of_beq h5
            have s1 : isSub (lower "Google Cloud") (lower name) = false := by rw [e5]; rfl
            have s2 : isSub (lower "Google") (lower name) = false := by rw [e5]; rfl
            have s3 : isSub (lower "Amazon Web Services") (lower name) = false := by
              rw [e5]; rfl
            have s4 : isSub (lower "Alibaba") (lower name) = false := by rw [e5]; rfl
            simp [normalize_provider_name, normAux, normalizeSpec, findEq, provider_aliases,
              h1, h2, h3, h4, h5, s1, s2, s3, s4]
          · rw [Bool.not_eq_true] at h5
            by_cases h6 : (lower name == lower "Thunder") = true
            · have e6 : lower name = lower "Thunder" := eq_of_beq h6
              have s1 : isSub (lower "Google Cloud") (lower name) = false := by rw [e6]; rfl
              have s2 : isSub (lower "Google") (lower name) = false := by rw [e6]; rfl
              have s3 : isSub (lower "Amazon Web Services") (lower name) = false := by
                rw [e6]; rfl
              have s4 : isSub (lower "Alibaba") (lower name) = false := by rw [e6]; rfl
              have s5 : isSub (lower "Tencent") (lower name) = false := by rw [e6]; rfl
              simp [normalize_provider_name, normAux, normalizeSpec, findEq, provider_aliases,
                h1, h2, h3, h4, h5, h6, s1, s2, s3, s4, s5]
            · rw [Bool.not_eq_true] at h6
              have hnone : findEq name provider_aliases = none := by
                simp [findEq, provider_aliases, h1, h2, h3, h4, h5, h6]
              have hcode := normAux_findEq_none name provider_aliases hnone
              unfold normalize_provider_name normalizeSpec
              rw [hnone, hcode]
              cases hfs : findSub name provider_aliases <;> simp [hfs]

end T4Bot
